import Mathlib

/-!
Verification development for the FuzzycodeLibraries `touchpad-controls`
layout engine.  The repository's scripts, tests and exporters
(`scripts/validate_layouts.js`, `scripts/test_control_space.js`,
`scripts/export_gold_configs.js`, `scripts/export_layout_snapshots.js`,
the key-mapping test) are embedded directly from their JavaScript source.
The engine itself (`touchpad-controls.js`: `buildLayout`,
`resolveKeyDescriptor`) is not part of the available sources, so it is
modelled from the design specification (sections 3, 4.1-4.4) and checked
against the embedded tests and validators.

Numbers are embedded as rationals (`ℚ`): all geometry constants in the
spec are exact decimals, so rational arithmetic reproduces the intended
algebra exactly and keeps every predicate decidable.
-/

namespace TouchpadControls

/-- Canonical event descriptor of a single physical key (spec section 3):
`code` is the stable physical identifier, `key` the reported label,
`keyCode` the legacy numeric id, `location` distinguishes duplicated
physical keys (0 when there is a single instance, 1 left, 2 right,
3 numeric pad). -/
structure KeyDescriptor where
  code : String
  key : String
  keyCode : Nat
  location : Nat
  deriving DecidableEq, Repr

/-- Static table for keys outside the generated letter/digit/function/numpad
families.  Modelled from the spec: section 4.1's fixed vocabulary and alias
table of `resolveKeyDescriptor` in `touchpad-controls.js` (absent from the
sources); the expected descriptors are pinned by the repository's key-mapping
test. -/
def keyTable (name : String) : Option KeyDescriptor :=
  match name with
  | "Space" => some ⟨"Space", " ", 32, 0⟩
  | "Spacebar" => some ⟨"Space", " ", 32, 0⟩
  | "Enter" => some ⟨"Enter", "Enter", 13, 0⟩
  | "Escape" => some ⟨"Escape", "Escape", 27, 0⟩
  | "Esc" => some ⟨"Escape", "Escape", 27, 0⟩
  | "Tab" => some ⟨"Tab", "Tab", 9, 0⟩
  | "Backspace" => some ⟨"Backspace", "Backspace", 8, 0⟩
  | "Delete" => some ⟨"Delete", "Delete", 46, 0⟩
  | "Home" => some ⟨"Home", "Home", 36, 0⟩
  | "End" => some ⟨"End", "End", 35, 0⟩
  | "PageUp" => some ⟨"PageUp", "PageUp", 33, 0⟩
  | "PageDown" => some ⟨"PageDown", "PageDown", 34, 0⟩
  | "ArrowLeft" => some ⟨"ArrowLeft", "ArrowLeft", 37, 0⟩
  | "ArrowUp" => some ⟨"ArrowUp", "ArrowUp", 38, 0⟩
  | "ArrowRight" => some ⟨"ArrowRight", "ArrowRight", 39, 0⟩
  | "ArrowDown" => some ⟨"ArrowDown", "ArrowDown", 40, 0⟩
  | "ShiftLeft" => some ⟨"ShiftLeft", "Shift", 16, 1⟩
  | "ShiftRight" => some ⟨"ShiftRight", "Shift", 16, 2⟩
  | "Shift" => some ⟨"ShiftLeft", "Shift", 16, 1⟩
  | "ControlLeft" => some ⟨"ControlLeft", "Control", 17, 1⟩
  | "ControlRight" => some ⟨"ControlRight", "Control", 17, 2⟩
  | "Control" => some ⟨"ControlLeft", "Control", 17, 1⟩
  | "AltLeft" => some ⟨"AltLeft", "Alt", 18, 1⟩
  | "AltRight" => some ⟨"AltRight", "Alt", 18, 2⟩
  | "Alt" => some ⟨"AltLeft", "Alt", 18, 1⟩
  | "MetaLeft" => some ⟨"MetaLeft", "Meta", 91, 1⟩
  | "MetaRight" => some ⟨"MetaRight", "Meta", 93, 2⟩
  | "Meta" => some ⟨"MetaLeft", "Meta", 91, 1⟩
  | "NumpadAdd" => some ⟨"NumpadAdd", "+", 107, 3⟩
  | "NumpadSubtract" => some ⟨"NumpadSubtract", "-", 109, 3⟩
  | "NumpadMultiply" => some ⟨"NumpadMultiply", "*", 106, 3⟩
  | "NumpadDivide" => some ⟨"NumpadDivide", "/", 111, 3⟩
  | "NumpadDecimal" => some ⟨"NumpadDecimal", ".", 110, 3⟩
  | "NumpadEnter" => some ⟨"NumpadEnter", "Enter", 13, 3⟩
  | "Minus" => some ⟨"Minus", "-", 189, 0⟩
  | "Equal" => some ⟨"Equal", "=", 187, 0⟩
  | "BracketLeft" => some ⟨"BracketLeft", "[", 219, 0⟩
  | "BracketRight" => some ⟨"BracketRight", "]", 221, 0⟩
  | "Backquote" => some ⟨"Backquote", "`", 192, 0⟩
  | "Semicolon" => some ⟨"Semicolon", ";", 186, 0⟩
  | "Quote" => some ⟨"Quote", "'", 222, 0⟩
  | "Comma" => some ⟨"Comma", ",", 188, 0⟩
  | "Period" => some ⟨"Period", ".", 190, 0⟩
  | "Slash" => some ⟨"Slash", "/", 191, 0⟩
  | "Backslash" => some ⟨"Backslash", "\\", 220, 0⟩
  | _ => none

/-- Modelled from the spec: `resolveKeyDescriptor(name)` of
`touchpad-controls.js` (absent from the sources), per spec section 4.1.
Letter keys `KeyA`..`KeyZ` report the lowercase letter with the
ASCII-derived keyCode; digit keys `Digit0`..`Digit9` report the digit;
numpad digits carry `location: 3` with keyCodes 96..105; function keys
`F1`..`F12` use keyCodes 112..123; everything else comes from the static
alias table.  Unknown names yield `none` (the resolution error of spec
section 7). -/
def resolveKeyDescriptor (name : String) : Option KeyDescriptor :=
  match name.toList with
  | ['K', 'e', 'y', c] =>
      if 'A' ≤ c ∧ c ≤ 'Z' then
        some ⟨name, String.mk [c.toLower], c.toNat, 0⟩
      else none
  | ['D', 'i', 'g', 'i', 't', d] =>
      if '0' ≤ d ∧ d ≤ '9' then
        some ⟨name, String.mk [d], d.toNat, 0⟩
      else none
  | ['N', 'u', 'm', 'p', 'a', 'd', d] =>
      if '0' ≤ d ∧ d ≤ '9' then
        some ⟨name, String.mk [d], 96 + (d.toNat - 48), 3⟩
      else keyTable name
  | ['F', d] =>
      if '1' ≤ d ∧ d ≤ '9' then
        some ⟨name, name, 112 + (d.toNat - 49), 0⟩
      else none
  | ['F', '1', d] =>
      if '0' ≤ d ∧ d ≤ '2' then
        some ⟨name, name, 121 + (d.toNat - 48), 0⟩
      else none
  | _ => keyTable name

/-- The numpad key names of the modelled vocabulary (spec section 4.1). -/
def numpadNames : List String :=
  ["Numpad0", "Numpad1", "Numpad2", "Numpad3", "Numpad4", "Numpad5",
   "Numpad6", "Numpad7", "Numpad8", "Numpad9", "NumpadAdd",
   "NumpadSubtract", "NumpadMultiply", "NumpadDivide", "NumpadDecimal",
   "NumpadEnter"]

/-- C3: every alias resolves to the same descriptor as its canonical long
form, with `location` defaulted to the left/primary variant: `Spacebar`
resolves to `{code: Space, key: " ", keyCode: 32}`, `Esc` to `Escape`'s
descriptor, bare `Shift`/`Control`/`Alt`/`Meta` to the `...Left` variant
with `location` 1, and explicit `...Left`/`...Right` forms to the matching
side with `location` 1 or 2 respectively. -/
theorem alias_resolution :
    resolveKeyDescriptor "Spacebar" = resolveKeyDescriptor "Space" ∧
    resolveKeyDescriptor "Spacebar" = some ⟨"Space", " ", 32, 0⟩ ∧
    resolveKeyDescriptor "Esc" = resolveKeyDescriptor "Escape" ∧
    resolveKeyDescriptor "Esc" = some ⟨"Escape", "Escape", 27, 0⟩ ∧
    resolveKeyDescriptor "Shift" = resolveKeyDescriptor "ShiftLeft" ∧
    resolveKeyDescriptor "Shift" = some ⟨"ShiftLeft", "Shift", 16, 1⟩ ∧
    resolveKeyDescriptor "Control" = resolveKeyDescriptor "ControlLeft" ∧
    resolveKeyDescriptor "Control" = some ⟨"ControlLeft", "Control", 17, 1⟩ ∧
    resolveKeyDescriptor "Alt" = resolveKeyDescriptor "AltLeft" ∧
    resolveKeyDescriptor "Alt" = some ⟨"AltLeft", "Alt", 18, 1⟩ ∧
    resolveKeyDescriptor "Meta" = resolveKeyDescriptor "MetaLeft" ∧
    resolveKeyDescriptor "Meta" = some ⟨"MetaLeft", "Meta", 91, 1⟩ ∧
    (resolveKeyDescriptor "ShiftLeft").map KeyDescriptor.location = some 1 ∧
    (resolveKeyDescriptor "ShiftRight") = some ⟨"ShiftRight", "Shift", 16, 2⟩ ∧
    (resolveKeyDescriptor "ControlRight").map KeyDescriptor.location = some 2 ∧
    (resolveKeyDescriptor "AltRight") = some ⟨"AltRight", "Alt", 18, 2⟩ ∧
    (resolveKeyDescriptor "MetaRight").map KeyDescriptor.location = some 2 := by
  decide

/-- C4: every numpad key name resolves with `location` 3, and
`NumpadEnter`'s `key`/`keyCode` equal plain `Enter`'s (`"Enter"`, 13)
while its `code` stays `"NumpadEnter"`. -/
theorem numpad_resolution :
    (numpadNames.all fun n =>
      match resolveKeyDescriptor n with
      | some d => d.location == 3
      | none => false) = true ∧
    resolveKeyDescriptor "NumpadEnter" =
      some ⟨"NumpadEnter", "Enter", 13, 3⟩ ∧
    resolveKeyDescriptor "Enter" = some ⟨"Enter", "Enter", 13, 0⟩ ∧
    resolveKeyDescriptor "Numpad0" = some ⟨"Numpad0", "0", 96, 3⟩ ∧
    resolveKeyDescriptor "Numpad9" = some ⟨"Numpad9", "9", 105, 3⟩ ∧
    resolveKeyDescriptor "NumpadAdd" = some ⟨"NumpadAdd", "+", 107, 3⟩ := by
  decide

/-- Axis binding (spec section 3): up to four direction names mapped to
key name strings; absent directions are `none`. -/
structure AxisBinding where
  left : Option String := none
  right : Option String := none
  up : Option String := none
  down : Option String := none
  deriving DecidableEq, Repr

/-- `control_space` enum (spec section 3). -/
inductive ControlSpace
  | vector
  | rate
  | magnitude
  deriving DecidableEq, Repr

/-- `behavior` enum (spec section 3). -/
inductive Behavior
  | continuous
  | discrete
  deriving DecidableEq, Repr

/-- `interaction` enum (spec section 3); `rep` embeds the JS value
`"repeat"`. -/
inductive Interaction
  | tap
  | hold
  | rep
  deriving DecidableEq, Repr

/-- `activation` enum (spec section 3). -/
inductive Activation
  | hold
  | latch
  deriving DecidableEq, Repr

/-- `direction_mode` enum (spec section 3). -/
inductive DirectionMode
  | vector
  | cardinal
  deriving DecidableEq, Repr

/-- `granularity` enum (spec section 3). -/
inductive Granularity
  | fine
  | coarse
  deriving DecidableEq, Repr

/-- `pair_position` enum (spec section 3). -/
inductive PairPosition
  | left
  | right
  deriving DecidableEq, Repr

/-- `kind` tag carried by generated action metadata (`"axis"` /
`"button"`, as in `scripts/test_control_space.js`). -/
inductive MetaKind
  | axis
  | button
  deriving DecidableEq, Repr

/-- Raw (string-enum) per-binding metadata exactly as a JS caller supplies
it; every field optional, `simultaneous` defaulting to `false`. -/
structure RawMeta where
  kind : Option String := none
  control_space : Option String := none
  behavior : Option String := none
  interaction : Option String := none
  activation : Option String := none
  direction_mode : Option String := none
  granularity : Option String := none
  simultaneous : Bool := false
  pair_id : Option String := none
  pair_position : Option String := none
  deriving DecidableEq, Repr

/-- Parsed per-binding metadata (spec section 3 `ActionMeta`). -/
structure MetaInfo where
  kind : Option MetaKind := none
  control_space : Option ControlSpace := none
  behavior : Option Behavior := none
  interaction : Option Interaction := none
  activation : Option Activation := none
  direction_mode : Option DirectionMode := none
  granularity : Option Granularity := none
  simultaneous : Bool := false
  pair_id : Option String := none
  pair_position : Option PairPosition := none
  deriving DecidableEq, Repr

def parseControlSpace : String → Option ControlSpace
  | "vector" => some .vector
  | "rate" => some .rate
  | "magnitude" => some .magnitude
  | _ => none

def parseBehavior : String → Option Behavior
  | "continuous" => some .continuous
  | "discrete" => some .discrete
  | _ => none

def parseInteraction : String → Option Interaction
  | "tap" => some .tap
  | "hold" => some .hold
  | "repeat" => some .rep
  | _ => none

def parseActivation : String → Option Activation
  | "hold" => some .hold
  | "latch" => some .latch
  | _ => none

def parseDirectionMode : String → Option DirectionMode
  | "vector" => some .vector
  | "cardinal" => some .cardinal
  | _ => none

def parseGranularity : String → Option Granularity
  | "fine" => some .fine
  | "coarse" => some .coarse
  | _ => none

def parsePairPosition : String → Option PairPosition
  | "left" => some .left
  | "right" => some .right
  | _ => none

def parseMetaKind : String → Option MetaKind
  | "axis" => some .axis
  | "button" => some .button
  | _ => none

/-- Lift a field parser over an optional raw field: an absent field parses
to `some none`; a present field must parse (spec section 7: unknown enum
values are schema errors, never coerced to a default). -/
def parseOpt {α : Type} (p : String → Option α) :
    Option String → Option (Option α)
  | none => some none
  | some s => (p s).map some

/-- Parse raw metadata into `MetaInfo`; `none` whenever some present enum
value is invalid. -/
def parseMeta (m : RawMeta) : Option MetaInfo :=
  match parseOpt parseMetaKind m.kind,
      parseOpt parseControlSpace m.control_space,
      parseOpt parseBehavior m.behavior,
      parseOpt parseInteraction m.interaction,
      parseOpt parseActivation m.activation,
      parseOpt parseDirectionMode m.direction_mode,
      parseOpt parseGranularity m.granularity,
      parseOpt parsePairPosition m.pair_position with
  | some k, some cs, some bv, some ia, some av, some dm, some gr, some pp =>
      some ⟨k, cs, bv, ia, av, dm, gr, m.simultaneous, m.pair_id, pp⟩
  | _, _, _, _, _, _, _, _ => none

/-- Safe-area insets in pixels (spec section 3). -/
structure SafeArea where
  top : ℚ := 0
  right : ℚ := 0
  bottom : ℚ := 0
  left : ℚ := 0
  deriving DecidableEq, Repr

/-- Viewport (spec section 3): dimensions plus safe-area insets, an
immutable input to geometry. -/
structure Viewport where
  width : ℚ
  height : ℚ
  safeArea : SafeArea := {}
  deriving DecidableEq, Repr

/-- One entry of the analysis shape's `axes` array (spec section 4.2):
usage/priority plus keys and inline metadata.  The inline metadata fields
are grouped into a `RawMeta` record. -/
structure RawAxis where
  usage : String
  priority : Option String := none
  keys : AxisBinding := {}
  meta : RawMeta := {}
  deriving DecidableEq, Repr

/-- One entry of the analysis shape's `actions` map (spec section 4.2):
the bound key plus inline metadata. -/
structure RawAction where
  keys : String
  meta : RawMeta := {}
  deriving DecidableEq, Repr

/-- Flat-shape `bindings` (spec section 4.2 shape (b)): optional `move` /
`aim` axis maps plus named action slots. -/
structure RawBindings where
  move : Option AxisBinding := none
  aim : Option AxisBinding := none
  slots : List (String × String) := []
  deriving DecidableEq, Repr

/-- Modelled from the spec: the full argument object of
`buildLayout(config)` in `touchpad-controls.js` (absent from the
sources), per spec sections 4.2 and 6: either the analysis shape
(`axes` + `actions`), the flat shape (`bindings` + `actionMeta`), or
both (flat values taking precedence per slot), plus the viewport. -/
structure BuildInput where
  layout : String := "auto"
  axes : List RawAxis := []
  actions : List (String × RawAction) := []
  bindings : Option RawBindings := none
  actionMeta : List (String × RawMeta) := []
  viewport : Viewport
  deriving DecidableEq, Repr

/-- The fixed action-slot vocabulary (spec section 4.2). -/
def allowedSlots : List String :=
  ["jump", "primary", "secondary", "tertiary", "modifier", "pause",
   "magnitude"]

/-- The archetype vocabulary accepted in the `layout` field (spec
sections 4.3 and glossary). -/
def archetypeNames : List String :=
  ["auto", "custom", "safe-platformer", "fast-platformer", "dual-stick",
   "runner"]

/-- Canonical configuration produced by the Schema Normalizer (spec
section 3 `CanonicalConfig`): optional axes, ordered action slots, parsed
metadata per binding name, and the requested layout. -/
structure CanonicalConfig where
  layout : String
  move : Option AxisBinding
  aim : Option AxisBinding
  acts : List (String × String)
  metas : List (String × MetaInfo)
  deriving DecidableEq, Repr

/-- First axis of a given usage, preferring `priority: "primary"` (spec
section 4.2: when two axes share a usage, the primary one wins the slot
and any secondary axis is dropped). -/
def pickAxis (axes : List RawAxis) (u : String) : Option RawAxis :=
  let same := axes.filter (fun a => a.usage = u)
  (same.find? (fun a => a.priority = some "primary")).orElse fun _ => same.head?

/-- Association-list lookup keeping the first hit. -/
def alistFind {α : Type} (l : List (String × α)) (k : String) : Option α :=
  (l.find? (fun p => p.1 = k)).map Prod.snd

/-- Raw (unparsed) metadata assembled for one binding name: flat
`actionMeta` wins, else the metadata inline in the analysis shape
(the axis with the matching usage for `move`/`aim`, the action entry for
action slots). -/
def rawMetaFor (rc : BuildInput) (name : String) : Option RawMeta :=
  (alistFind rc.actionMeta name).orElse fun _ =>
    match name with
    | "move" => (pickAxis rc.axes "movement").map RawAxis.meta
    | "aim" => (pickAxis rc.axes "aim").map RawAxis.meta
    | _ => (alistFind rc.actions name).map RawAction.meta

/-- Modelled from the spec: the Schema Normalizer of
`touchpad-controls.js` (absent from the sources), spec section 4.2.
Axes with `usage: movement` / `usage: aim` become `bindings.move` /
`bindings.aim`; each `actions` entry becomes an action slot; flat
`bindings` values take precedence per slot; metadata is parsed into
strict enums (an unparsable entry is simply dropped here — validity is
established separately by `validInput` before this runs). -/
def canonicalize (rc : BuildInput) : CanonicalConfig :=
  let flat := rc.bindings.getD {}
  let move := flat.move.orElse fun _ =>
    (pickAxis rc.axes "movement").map RawAxis.keys
  let aim := flat.aim.orElse fun _ =>
    (pickAxis rc.axes "aim").map RawAxis.keys
  let slotKey := fun s => (alistFind flat.slots s).orElse fun _ =>
    (alistFind rc.actions s).map RawAction.keys
  let acts := allowedSlots.filterMap fun s => (slotKey s).map (s, ·)
  let metaNames := "move" :: "aim" :: allowedSlots
  let metas := metaNames.filterMap fun n =>
    ((rawMetaFor rc n).bind parseMeta).map (n, ·)
  ⟨rc.layout, move, aim, acts, metas⟩

/-- All direction keys present in an axis binding. -/
def axisKeys (a : AxisBinding) : List String :=
  [a.left, a.right, a.up, a.down].filterMap id

/-- Every key name referenced by the canonical bindings (spec section 3
invariant: all of them must be resolvable). -/
def referencedKeys (c : CanonicalConfig) : List String :=
  ((c.move.map axisKeys).getD []) ++ ((c.aim.map axisKeys).getD []) ++
    c.acts.map Prod.snd

/-- Names carrying metadata must be `move`, `aim` or a fixed action
slot. -/
def metaNameOk (n : String) : Bool :=
  n == "move" || n == "aim" || allowedSlots.contains n

/-- Modelled from the spec: the validation performed by `buildLayout`
before any button is produced (spec sections 4.2, 6, 7): the layout name
is in the archetype vocabulary, action slot names (in both shapes) are in
the fixed slot set, every present metadata enum parses, axis usages are
known, and every referenced key name resolves. -/
def validInput (rc : BuildInput) : Bool :=
  let flat := rc.bindings.getD {}
  archetypeNames.contains rc.layout &&
  rc.actions.all (fun p => allowedSlots.contains p.1) &&
  flat.slots.all (fun p => allowedSlots.contains p.1) &&
  rc.actionMeta.all (fun p => metaNameOk p.1 && (parseMeta p.2).isSome) &&
  rc.axes.all (fun a =>
    (a.usage == "movement" || a.usage == "aim") &&
    (parseMeta a.meta).isSome) &&
  rc.actions.all (fun p => (parseMeta p.2.meta).isSome) &&
  (referencedKeys (canonicalize rc)).all
    (fun k => (resolveKeyDescriptor k).isSome)

/-- Metadata recorded for a binding name, defaulting to the empty record
(spec section 4.2: entries without metadata fall back to defaults). -/
def metaFor (c : CanonicalConfig) (n : String) : MetaInfo :=
  (alistFind c.metas n).getD {}

/-- Does any non-`move` binding carry `control_space: magnitude`? -/
def hasMagnitudeAction (c : CanonicalConfig) : Bool :=
  c.metas.any fun p =>
    p.1 ≠ "move" && p.2.control_space == some ControlSpace.magnitude

/-- The axis-decoupling condition (spec section 4.3): `move` has
`control_space: rate` while a separate action/axis carries
`control_space: magnitude`. -/
def decoupleMove (c : CanonicalConfig) : Bool :=
  (metaFor c "move").control_space == some ControlSpace.rate &&
    hasMagnitudeAction c

/-- The `move` axis as it will be rendered: vertical directions dropped
when the decoupling override applies (spec section 4.3). -/
def effectiveMove (c : CanonicalConfig) : Option AxisBinding :=
  c.move.map fun a =>
    if decoupleMove c then { a with up := none, down := none } else a

/-- Axis with at least one horizontal and no vertical direction. -/
def horizontalOnly (a : AxisBinding) : Bool :=
  a.up.isNone && a.down.isNone && (a.left.isSome || a.right.isSome)

/-- Modelled from the spec: the Layout Selector of `touchpad-controls.js`
(absent from the sources), spec section 4.3.  An explicit archetype other
than `"auto"`/`"custom"` wins; otherwise `aim` forces `dual-stick`, a
horizontal-only rendered move axis gives `safe-platformer`, any other
move axis gives `fast-platformer`, and no movement axis gives `runner`.
Selection runs on the decoupled view of the move axis, which is what
makes the rate/magnitude test expect `safe-platformer`. -/
def selectArchetype (c : CanonicalConfig) : String :=
  if c.layout ≠ "auto" ∧ c.layout ≠ "custom" then c.layout
  else
    match c.aim, effectiveMove c with
    | some _, _ => "dual-stick"
    | none, some m =>
        if horizontalOnly m then "safe-platformer" else "fast-platformer"
    | none, none => "runner"

/-- Exact rational addition implemented on the numerator/denominator
representation.  The geometry uses these helpers instead of the standard
field operations only because `Rat.add`/`Rat.mul`/`Rat.inv` are
`@[irreducible]` in the ambient library and would block kernel
evaluation of the decidable layout checks; `qadd_eq` and friends prove
they agree with the standard operations. -/
def qadd (a b : ℚ) : ℚ :=
  Rat.divInt (a.num * b.den + b.num * a.den) (a.den * b.den)

/-- Exact rational subtraction on the num/den representation; agrees
with `Sub.sub` by `qsub_eq`. -/
def qsub (a b : ℚ) : ℚ :=
  Rat.divInt (a.num * b.den - b.num * a.den) (a.den * b.den)

/-- Exact rational multiplication on the num/den representation; agrees
with `Mul.mul` by `qmul_eq`. -/
def qmul (a b : ℚ) : ℚ :=
  Rat.divInt (a.num * b.num) (a.den * b.den)

/-- Exact rational division on the num/den representation; agrees with
`Div.div` by `qdiv_eq` (both send division by zero to zero). -/
def qdiv (a b : ℚ) : ℚ :=
  Rat.divInt (a.num * b.den) (a.den * b.num)

/-- Half of a rational value. -/
def qhalf (a : ℚ) : ℚ :=
  qdiv a 2

theorem qadd_eq (a b : ℚ) : qadd a b = a + b := by
  have ha : (a.den : ℚ) ≠ 0 := Nat.cast_ne_zero.mpr (Rat.den_ne_zero a)
  have hb : (b.den : ℚ) ≠ 0 := Nat.cast_ne_zero.mpr (Rat.den_ne_zero b)
  conv_rhs => rw [← Rat.num_div_den a, ← Rat.num_div_den b]
  rw [qadd, Rat.divInt_eq_div]
  push_cast
  field_simp

theorem qsub_eq (a b : ℚ) : qsub a b = a - b := by
  have ha : (a.den : ℚ) ≠ 0 := Nat.cast_ne_zero.mpr (Rat.den_ne_zero a)
  have hb : (b.den : ℚ) ≠ 0 := Nat.cast_ne_zero.mpr (Rat.den_ne_zero b)
  conv_rhs => rw [← Rat.num_div_den a, ← Rat.num_div_den b]
  rw [qsub, Rat.divInt_eq_div]
  push_cast
  field_simp
  ring

theorem qmul_eq (a b : ℚ) : qmul a b = a * b := by
  have ha : (a.den : ℚ) ≠ 0 := Nat.cast_ne_zero.mpr (Rat.den_ne_zero a)
  have hb : (b.den : ℚ) ≠ 0 := Nat.cast_ne_zero.mpr (Rat.den_ne_zero b)
  conv_rhs => rw [← Rat.num_div_den a, ← Rat.num_div_den b]
  rw [qmul, Rat.divInt_eq_div]
  push_cast
  rw [div_mul_div_comm]

theorem qdiv_eq (a b : ℚ) : qdiv a b = a / b := by
  rcases eq_or_ne b 0 with hb | hb
  · subst hb
    simp [qdiv]
  · have hbn : (b.num : ℚ) ≠ 0 := by
      exact_mod_cast Rat.num_ne_zero.mpr hb
    have ha : (a.den : ℚ) ≠ 0 := Nat.cast_ne_zero.mpr (Rat.den_ne_zero a)
    have hbd : (b.den : ℚ) ≠ 0 := Nat.cast_ne_zero.mpr (Rat.den_ne_zero b)
    conv_rhs => rw [← Rat.num_div_den a, ← Rat.num_div_den b]
    rw [qdiv, Rat.divInt_eq_div]
    push_cast
    field_simp

theorem qhalf_eq (a : ℚ) : qhalf a = a / 2 := by
  rw [qhalf, qdiv_eq]

/-- Derived layout metrics (spec section 4.4 sizing table), all clamped
fractions of `minDim = min(width, height)`. -/
structure Metrics where
  width : ℚ
  height : ℚ
  safeArea : SafeArea
  edgePadding : ℚ
  spacing : ℚ
  movementSize : ℚ
  actionSize : ℚ
  smallSize : ℚ
  deriving DecidableEq, Repr

/-- Clamp a value into `[lo, hi]`. -/
def clampQ (v lo hi : ℚ) : ℚ :=
  max lo (min v hi)

/-- Modelled from the spec: metric derivation of the Geometry Engine
(spec section 4.4): movement `minDim*0.17` in `[64,112]`, standard action
`minDim*0.14` in `[56,96]`, small action `minDim*0.12` in `[48,80]`, edge
padding `minDim*0.05` in `[16,32]`, spacing `minDim*0.03` in `[10,20]`. -/
def metricsOf (vp : Viewport) : Metrics :=
  let md := min vp.width vp.height
  { width := vp.width
    height := vp.height
    safeArea := vp.safeArea
    edgePadding := clampQ (qdiv (qmul md 5) 100) 16 32
    spacing := clampQ (qdiv (qmul md 3) 100) 10 20
    movementSize := clampQ (qdiv (qmul md 17) 100) 64 112
    actionSize := clampQ (qdiv (qmul md 14) 100) 56 96
    smallSize := clampQ (qdiv (qmul md 12) 100) 48 80 }

/-- A button's bound keys: one key name, or an axis map (spec section 3
`ButtonDescriptor.keys`). -/
inductive ButtonKeys
  | single (k : String)
  | axis (a : AxisBinding)
  deriving DecidableEq, Repr

/-- Output button descriptor (spec section 3): `x`/`y` is the center in
viewport pixels, `size` the square footprint. -/
structure ButtonDescriptor where
  id : String
  role : String
  type : String
  keys : ButtonKeys
  x : ℚ
  y : ℚ
  size : ℚ
  deriving DecidableEq, Repr

/-- Control type of a movement axis (spec section 4.3 rule 3:
`cardinal`+`coarse` gives a digital pad, otherwise a joystick). -/
def moveType (mi : MetaInfo) : String :=
  if mi.direction_mode = some DirectionMode.cardinal ∧
      mi.granularity = some Granularity.coarse then "dpad" else "joystick"

/-- The movement control, anchored to the bottom-left safe-area corner
offset inward by `safeArea[side] + edgePadding + size/2` (spec
section 4.4). -/
def moveButton (c : CanonicalConfig) (m : Metrics) : Option ButtonDescriptor :=
  (effectiveMove c).map fun a =>
    let s := m.movementSize
    { id := "move", role := "move", type := moveType (metaFor c "move")
      keys := ButtonKeys.axis a
      x := qadd (qadd m.safeArea.left m.edgePadding) (qhalf s)
      y := qsub (qsub (qsub m.height m.safeArea.bottom) m.edgePadding)
        (qhalf s)
      size := s }

/-- The aim control, anchored to the bottom-right safe-area corner (the
second thumb of the dual-stick archetype). -/
def aimButton (c : CanonicalConfig) (m : Metrics) : Option ButtonDescriptor :=
  c.aim.map fun a =>
    let s := m.movementSize
    { id := "aim", role := "aim", type := moveType (metaFor c "aim")
      keys := ButtonKeys.axis a
      x := qsub (qsub (qsub m.width m.safeArea.right) m.edgePadding)
        (qhalf s)
      y := qsub (qsub (qsub m.height m.safeArea.bottom) m.edgePadding)
        (qhalf s)
      size := s }

/-- Ordered action slots with their sizes: the first (most reachable)
action gets the standard action size, later ones the small size (spec
section 4.4: the primary action is nearest the anchor and largest). -/
def sizedActions (c : CanonicalConfig) (m : Metrics) :
    List (String × String × ℚ) :=
  match c.acts with
  | [] => []
  | (s, k) :: rest =>
      (s, k, m.actionSize) :: rest.map fun p => (p.1, p.2, m.smallSize)

/-- One row of the action stack: a single action, or a left/right pair
(spec section 4.3 paired actions). -/
inductive ActionRow
  | single (slot key : String) (size : ℚ)
  | pair (lslot lkey : String) (lsize : ℚ) (rslot rkey : String) (rsize : ℚ)
  deriving DecidableEq, Repr

/-- Does a sized action entry carry the given `pair_id`? -/
def pairPred (c : CanonicalConfig) (pid : String)
    (t : String × String × ℚ) : Bool :=
  (metaFor c t.1).pair_id == some pid

/-- Group the sized action list into rows, joining the two slots that
share a `pair_id` into one left/right row oriented by `pair_position`
(spec section 4.3).  `fuel` bounds the recursion by the list length. -/
def buildRowsAux (c : CanonicalConfig) :
    Nat → List (String × String × ℚ) → List ActionRow
  | 0, _ => []
  | _ + 1, [] => []
  | n + 1, (s, k, sz) :: rest =>
      match (metaFor c s).pair_id with
      | none => ActionRow.single s k sz :: buildRowsAux c n rest
      | some pid =>
          match rest.find? (pairPred c pid) with
          | none => ActionRow.single s k sz :: buildRowsAux c n rest
          | some (s2, k2, sz2) =>
              let rest2 := rest.eraseP (pairPred c pid)
              let row :=
                if (metaFor c s).pair_position = some PairPosition.right then
                  ActionRow.pair s2 k2 sz2 s k sz
                else
                  ActionRow.pair s k sz s2 k2 sz2
              row :: buildRowsAux c n rest2

/-- Vertical extent of a row. -/
def rowHeight : ActionRow → ℚ
  | .single _ _ sz => sz
  | .pair _ _ ls _ _ rs => max ls rs

/-- Buttons of one row, right-aligned to the bottom-right anchor column;
`bot` is the lower boundary available to this row.  A pair sits side by
side, the right-tagged slot on the anchor column and the left-tagged slot
one spacing to its left (spec sections 4.3 and 4.4). -/
def rowButtons (m : Metrics) (bot : ℚ) : ActionRow → List ButtonDescriptor
  | .single s k sz =>
      [{ id := s, role := s, type := "button", keys := ButtonKeys.single k
         x := qsub (qsub (qsub m.width m.safeArea.right) m.edgePadding)
           (qhalf sz)
         y := qsub bot (qhalf sz)
         size := sz }]
  | .pair ls lk lsz rs rk rsz =>
      let h := rowHeight (ActionRow.pair ls lk lsz rs rk rsz)
      let xr := qsub (qsub (qsub m.width m.safeArea.right) m.edgePadding)
        (qhalf rsz)
      let xl := qsub (qsub (qsub xr (qhalf rsz)) m.spacing) (qhalf lsz)
      [{ id := ls, role := ls, type := "button", keys := ButtonKeys.single lk
         x := xl, y := qsub bot (qhalf h), size := lsz },
       { id := rs, role := rs, type := "button", keys := ButtonKeys.single rk
         x := xr, y := qsub bot (qhalf h), size := rsz }]

/-- Stack rows upward from the bottom boundary, separated by the
inter-control spacing (spec section 4.4). -/
def placeRows (m : Metrics) : ℚ → List ActionRow → List ButtonDescriptor
  | _, [] => []
  | bot, r :: rest =>
      rowButtons m bot r ++
        placeRows m (qsub (qsub bot (rowHeight r)) m.spacing) rest

/-- The action slots a row mentions. -/
def rowSlots : ActionRow → List String
  | .single s _ _ => [s]
  | .pair ls _ _ rs _ _ => [ls, rs]

/-- The lower boundary left for the rows following `rows` when stacking
starts at `bot`. -/
def stackBottom (m : Metrics) (bot : ℚ) (rows : List ActionRow) : ℚ :=
  rows.foldl (fun b r => qsub (qsub b (rowHeight r)) m.spacing) bot

/-- Modelled from the spec: the Geometry Engine placement of
`touchpad-controls.js` (absent from the sources), spec section 4.4.
Movement-class controls anchor at the bottom-left corner, aim and action
controls at the bottom-right; when an aim stick occupies the corner the
action stack starts above it. -/
def placeButtons (c : CanonicalConfig) (m : Metrics) : List ButtonDescriptor :=
  let yBottom := qsub (qsub m.height m.safeArea.bottom) m.edgePadding
  let actBottom :=
    if c.aim.isSome then qsub (qsub yBottom m.movementSize) m.spacing
    else yBottom
  let sized := sizedActions c m
  (moveButton c m).toList ++ (aimButton c m).toList ++
    placeRows m actBottom (buildRowsAux c sized.length sized)

/-- Error taxonomy surfaced by `buildLayout` (spec section 7). -/
inductive LayoutError
  | schemaError
  deriving DecidableEq, Repr

/-- Final result object (spec section 3 `LayoutResult`). -/
structure LayoutResult where
  layout : String
  move : Option AxisBinding
  aim : Option AxisBinding
  acts : List (String × String)
  metas : List (String × MetaInfo)
  buttons : List ButtonDescriptor
  metrics : Metrics
  deriving DecidableEq, Repr

/-- Modelled from the spec: `buildLayout(config)` of
`touchpad-controls.js` (absent from the sources), spec sections 4 and 6:
normalize, validate (failing with no buttons emitted), select the
archetype, derive metrics and place buttons. -/
def buildLayout (rc : BuildInput) : Except LayoutError LayoutResult :=
  if validInput rc then
    let c := canonicalize rc
    let m := metricsOf rc.viewport
    Except.ok
      ⟨selectArchetype c, c.move, c.aim, c.acts, c.metas, placeButtons c m, m⟩
  else
    Except.error LayoutError.schemaError

/-- Buttons of a layout call; an error result carries none. -/
def layoutButtons : Except LayoutError LayoutResult → List ButtonDescriptor
  | .ok r => r.buttons
  | .error _ => []

/-- Whether a layout call succeeded. -/
def layoutOk : Except LayoutError LayoutResult → Bool
  | .ok _ => true
  | .error _ => false

/-- First button with the given role, as the repository tests do with
`buttons.find(btn => btn.role === ...)`. -/
def findRole (r : LayoutResult) (role : String) : Option ButtonDescriptor :=
  r.buttons.find? fun b => b.role = role

/-- The five fixed regression viewports of
`scripts/validate_layouts.js` (also listed in spec section 6):
phone-portrait, phone-landscape, small-phone, tablet-portrait,
tablet-landscape with their safe-area insets. -/
def regressionViewports : List Viewport :=
  [⟨390, 844, ⟨47, 0, 34, 0⟩⟩,
   ⟨844, 390, ⟨0, 47, 21, 47⟩⟩,
   ⟨360, 640, ⟨0, 0, 0, 0⟩⟩,
   ⟨810, 1080, ⟨24, 0, 20, 0⟩⟩,
   ⟨1024, 768, ⟨0, 0, 0, 0⟩⟩]

/-- The four archetypes with their representative bindings, embedded from
the `layouts` array of `scripts/validate_layouts.js`. -/
def archetypeCases : List (String × RawBindings) :=
  [("safe-platformer",
    { move := some ⟨some "ArrowLeft", some "ArrowRight", none, none⟩
      slots := [("primary", "Space"), ("secondary", "KeyJ")] }),
   ("fast-platformer",
    { move := some ⟨some "ArrowLeft", some "ArrowRight", some "ArrowUp",
        some "ArrowDown"⟩
      slots := [("primary", "Space"), ("secondary", "KeyJ")] }),
   ("dual-stick",
    { move := some ⟨some "KeyA", some "KeyD", some "KeyW", some "KeyS"⟩
      aim := some ⟨some "ArrowLeft", some "ArrowRight", some "ArrowUp",
        some "ArrowDown"⟩
      slots := [("primary", "Space")] }),
   ("runner",
    { slots := [("primary", "Space"), ("secondary", "ArrowLeft"),
        ("tertiary", "ArrowRight")] })]

/-- Embedded from `withinBounds` of `scripts/validate_layouts.js`
(lines 74-97): the button's square bounding box, centered at `x`,`y` with
side `size`, must lie within the padded safe rectangle, and `size` must
be at least 48.  The source returns an error string in the failing cases
and `null` otherwise; here failure is `false` and `null` is `true`.  The
`Number.isFinite` guard is dropped: rationals are always finite. -/
def withinBounds (b : ButtonDescriptor) (m : Metrics) : Bool :=
  let size := b.size
  let l := qsub b.x (qhalf size)
  let r := qadd b.x (qhalf size)
  let t := qsub b.y (qhalf size)
  let bo := qadd b.y (qhalf size)
  let minX := qadd m.safeArea.left m.edgePadding
  let maxX := qsub (qsub m.width m.safeArea.right) m.edgePadding
  let minY := qadd m.safeArea.top m.edgePadding
  let maxY := qsub (qsub m.height m.safeArea.bottom) m.edgePadding
  decide (48 ≤ size) && decide (minX ≤ l) && decide (r ≤ maxX) &&
    decide (minY ≤ t) && decide (bo ≤ maxY)

/-- Input of one validator case: explicit archetype, representative
bindings, one regression viewport (`scripts/validate_layouts.js`). -/
def validatorInput (pc : String × RawBindings) (vp : Viewport) : BuildInput :=
  { layout := pc.1, bindings := some pc.2, viewport := vp }

/-- C1: for every one of the five fixed regression viewports crossed with
each of the four named archetypes under the representative bindings of
`scripts/validate_layouts.js`, `buildLayout` succeeds, produces at least
one button, and every button has `size ≥ 48` with its square bounding box
inside `[safeArea.left+edgePadding, width-safeArea.right-edgePadding] ×
[safeArea.top+edgePadding, height-safeArea.bottom-edgePadding]` of the
result's metrics (`withinBounds` embedded from the validator). -/
theorem regression_viewport_bounds :
    (regressionViewports.all fun vp =>
      archetypeCases.all fun pc =>
        match buildLayout (validatorInput pc vp) with
        | .error _ => false
        | .ok res =>
            !res.buttons.isEmpty &&
              res.buttons.all fun b =>
                decide (48 ≤ b.size) && withinBounds b res.metrics) = true := by
  decide

/-- The rate/magnitude configuration of
`scripts/test_control_space.js` with the four key names abstracted:
`move` bound to `{left, right, up}` with `control_space: "rate"`, a
`primary` action with `control_space: "magnitude"`, layout `"auto"`,
viewport 800x600 with zero insets. -/
def controlSpaceInput (l r u p : String) : BuildInput :=
  { layout := "auto"
    bindings := some
      { move := some ⟨some l, some r, some u, none⟩
        slots := [("primary", p)] }
    actionMeta :=
      [("move",
        { kind := some "axis", control_space := some "rate"
          behavior := some "continuous", interaction := some "hold"
          simultaneous := true }),
       ("primary",
        { kind := some "button", control_space := some "magnitude"
          behavior := some "continuous", interaction := some "hold"
          simultaneous := true })]
    viewport := ⟨800, 600, ⟨0, 0, 0, 0⟩⟩ }

/-- C2: for every resolvable choice of the four key names, the
rate/magnitude config resolves the archetype to `"safe-platformer"`, the
produced `move` button's keys keep `left`/`right` but drop `up`/`down`,
and the magnitude-carrying `primary` action is rendered as a separate
button (spec sections 4.3 and 8, `scripts/test_control_space.js`). -/
theorem rate_magnitude_decoupling (l r u p : String)
    (h : validInput (controlSpaceInput l r u p) = true) :
    (buildLayout (controlSpaceInput l r u p)).map LayoutResult.layout =
      Except.ok "safe-platformer" ∧
    ((buildLayout (controlSpaceInput l r u p)).map fun res =>
        (findRole res "move").map ButtonDescriptor.keys) =
      Except.ok (some (ButtonKeys.axis ⟨some l, some r, none, none⟩)) ∧
    ((buildLayout (controlSpaceInput l r u p)).map fun res =>
        (findRole res "primary").map ButtonDescriptor.keys) =
      Except.ok (some (ButtonKeys.single p)) := by
  unfold buildLayout
  rw [if_pos h]
  refine ⟨rfl, rfl, rfl⟩

/-- Witness for C2 at the concrete keys of the repository test
(`ArrowLeft`/`ArrowRight`/`ArrowUp` with `primary` on `ArrowUp`). -/
theorem rate_magnitude_decoupling_witness :
    (buildLayout (controlSpaceInput "ArrowLeft" "ArrowRight" "ArrowUp"
        "ArrowUp")).map LayoutResult.layout =
      Except.ok "safe-platformer" ∧
    ((buildLayout (controlSpaceInput "ArrowLeft" "ArrowRight" "ArrowUp"
        "ArrowUp")).map fun res =>
        (findRole res "move").map ButtonDescriptor.keys) =
      Except.ok (some (ButtonKeys.axis
        ⟨some "ArrowLeft", some "ArrowRight", none, none⟩)) ∧
    ((buildLayout (controlSpaceInput "ArrowLeft" "ArrowRight" "ArrowUp"
        "ArrowUp")).map fun res =>
        (findRole res "primary").map ButtonDescriptor.keys) =
      Except.ok (some (ButtonKeys.single "ArrowUp")) :=
  rate_magnitude_decoupling "ArrowLeft" "ArrowRight" "ArrowUp" "ArrowUp"
    (by decide)

/-- The analysis-shape input of the repository's analysis-input test:
one `movement` axis on the arrows (vector/continuous/fine) and one
`jump` action on `Space` (discrete/tap), viewport 800x600. -/
def analysisInput : BuildInput :=
  { layout := "auto"
    axes :=
      [{ usage := "movement", priority := some "primary"
         keys := ⟨some "ArrowLeft", some "ArrowRight", some "ArrowUp",
           some "ArrowDown"⟩
         meta :=
           { control_space := some "vector", behavior := some "continuous"
             interaction := some "hold", activation := some "hold"
             direction_mode := some "vector", granularity := some "fine"
             simultaneous := true } }]
    actions :=
      [("jump",
        { keys := "Space"
          meta := { behavior := some "discrete", interaction := some "tap"
                    simultaneous := true } })]
    viewport := ⟨800, 600, ⟨0, 0, 0, 0⟩⟩ }

/-- C5: the analysis shape normalizes to canonical bindings with
`move.left = "ArrowLeft"` and `jump = "Space"`, and `buildLayout` emits
at least one button per declared binding (a `move` control and a `jump`
button). -/
theorem analysis_shape_normalization :
    ((buildLayout analysisInput).map fun res =>
        (res.move.map AxisBinding.left, alistFind res.acts "jump")) =
      Except.ok (some (some "ArrowLeft"), some "Space") ∧
    ((buildLayout analysisInput).map fun res =>
        ((findRole res "move").isSome, (findRole res "jump").isSome,
          !res.buttons.isEmpty)) =
      Except.ok (true, true, true) :=
  ⟨rfl, rfl⟩

/-- Metadata pairing `secondary` (left) and `tertiary` (right) under one
`pair_id`. -/
def pairedMeta : List (String × RawMeta) :=
  [("secondary", { pair_id := some "pp", pair_position := some "left" }),
   ("tertiary", { pair_id := some "pp", pair_position := some "right" })]

/-- `pairPred` holds exactly when the entry's metadata carries the given
`pair_id`. -/
theorem pairPred_eq_true (c : CanonicalConfig) (pid : String)
    (t : String × String × ℚ) :
    pairPred c pid t = true ↔ (metaFor c t.1).pair_id = some pid := by
  rw [pairPred]
  exact beq_iff_eq

/-- In a list with distinct keys, two members with the same key are the
same entry. -/
theorem eq_of_keys_nodup {α : Type} :
    ∀ (l : List (String × α)), (l.map Prod.fst).Nodup →
      ∀ (a b : String × α), a ∈ l → b ∈ l → a.1 = b.1 → a = b
  | [], _, a, _, ha, _, _ => absurd ha (List.not_mem_nil a)
  | x :: xs, hnd, a, b, ha, hb, hfst => by
      rw [List.map_cons, List.nodup_cons] at hnd
      rcases List.mem_cons.mp ha with rfl | ha2
      · rcases List.mem_cons.mp hb with rfl | hb2
        · rfl
        · exact absurd (hfst ▸ List.mem_map_of_mem Prod.fst hb2) hnd.1
      · rcases List.mem_cons.mp hb with rfl | hb2
        · exact absurd (hfst ▸ List.mem_map_of_mem Prod.fst ha2) hnd.1
        · exact eq_of_keys_nodup xs hnd.2 a b ha2 hb2 hfst

/-- Every slot a produced row mentions comes from the sized list it was
built from. -/
theorem rowSlots_sub (c : CanonicalConfig) :
    ∀ (fuel : Nat) (L : List (String × String × ℚ)) (r : ActionRow),
      r ∈ buildRowsAux c fuel L →
        ∀ s ∈ rowSlots r, s ∈ L.map fun t => t.1 := by
  intro fuel
  induction fuel with
  | zero =>
      intro L r hr
      rw [buildRowsAux] at hr
      cases hr
  | succ f ih =>
      intro L r hr s hs
      match L with
      | [] =>
          rw [buildRowsAux] at hr
          cases hr
      | (s0, k0, z0) :: rest =>
          rw [buildRowsAux] at hr
          rcases hpid : (metaFor c s0).pair_id with _ | pid
          all_goals simp only [hpid] at hr
          · rcases List.mem_cons.mp hr with rfl | h2
            · rw [rowSlots] at hs
              rcases List.mem_singleton.mp hs with rfl
              exact List.mem_cons_self _ _
            · exact List.mem_cons_of_mem _ (ih rest r h2 s hs)
          · rcases hfind : rest.find? (pairPred c pid) with _ | ⟨s4, k4, z4⟩
            all_goals simp only [hfind] at hr
            · rcases List.mem_cons.mp hr with rfl | h2
              · rw [rowSlots] at hs
                rcases List.mem_singleton.mp hs with rfl
                exact List.mem_cons_self _ _
              · exact List.mem_cons_of_mem _ (ih rest r h2 s hs)
            · rcases List.mem_cons.mp hr with rfl | h2
              · have h4 : (s4, k4, z4) ∈ rest :=
                  List.mem_of_find?_eq_some hfind
                have h4s : s4 ∈ ((s0, k0, z0) :: rest).map fun t => t.1 :=
                  List.mem_cons_of_mem _
                    (List.mem_map_of_mem (fun t => t.1) h4)
                by_cases hpp :
                    (metaFor c s0).pair_position = some PairPosition.right
                · rw [if_pos hpp, rowSlots] at hs
                  rcases List.mem_cons.mp hs with rfl | hs
                  · exact h4s
                  · rcases List.mem_singleton.mp hs with rfl
                    exact List.mem_cons_self _ _
                · rw [if_neg hpp, rowSlots] at hs
                  rcases List.mem_cons.mp hs with rfl | hs
                  · exact List.mem_cons_self _ _
                  · rcases List.mem_singleton.mp hs with rfl
                    exact h4s
              · have hsr := ih (rest.eraseP (pairPred c pid)) r h2 s hs
                have hsub :
                    List.Sublist
                      ((rest.eraseP (pairPred c pid)).map fun t => t.1)
                      (rest.map fun t => t.1) :=
                  (List.eraseP_sublist rest).map _
                exact List.mem_cons_of_mem _ (hsub.mem hsr)

/-- When exactly two entries of the sized list carry a given `pair_id` —
one tagged `left`, the other `right` — the row builder emits exactly one
row for them, a pair row oriented left-then-right, and no other row
mentions either slot. -/
theorem buildRows_pair (c : CanonicalConfig) :
    ∀ (fuel : Nat) (L : List (String × String × ℚ))
      (s1 s2 pid k1 k2 : String) (z1 z2 : ℚ),
      L.length ≤ fuel →
      ((L.map fun t => t.1).Nodup) →
      s1 ≠ s2 →
      (s1, k1, z1) ∈ L → (s2, k2, z2) ∈ L →
      (metaFor c s1).pair_id = some pid →
      (metaFor c s1).pair_position = some PairPosition.left →
      (metaFor c s2).pair_id = some pid →
      (metaFor c s2).pair_position = some PairPosition.right →
      (∀ t ∈ L, t.1 ≠ s1 → t.1 ≠ s2 →
        (metaFor c t.1).pair_id ≠ some pid) →
      ∃ pre post,
        buildRowsAux c fuel L =
          pre ++ ActionRow.pair s1 k1 z1 s2 k2 z2 :: post ∧
        ∀ r ∈ pre ++ post, s1 ∉ rowSlots r ∧ s2 ∉ rowSlots r := by
  intro fuel
  induction fuel with
  | zero =>
      intro L s1 s2 pid k1 k2 z1 z2 hlen _ _ h1 _ _ _ _ _ _
      rw [List.length_eq_zero.mp (Nat.le_zero.mp hlen)] at h1
      cases h1
  | succ f ih =>
      intro L s1 s2 pid k1 k2 z1 z2 hlen hnd hne h1 h2 hm1 hp1 hm2 hp2 hoth
      cases L with
      | nil => cases h1
      | cons hd rest =>
        obtain ⟨s0, k0, z0⟩ := hd
        have hnd2 := hnd
        rw [List.map_cons, List.nodup_cons] at hnd2
        have hlen2 : rest.length ≤ f := Nat.succ_le_succ_iff.mp hlen
        by_cases h01 : s0 = s1
        · -- the head is the left-tagged entry
          have hhd : ((s0, k0, z0) : String × String × ℚ) = (s1, k1, z1) :=
            eq_of_keys_nodup _ hnd _ _ (List.mem_cons_self _ _) h1 h01
          have hns1 : s1 ∉ rest.map fun t => t.1 := h01 ▸ hnd2.1
          have h2r : (s2, k2, z2) ∈ rest := by
            rcases List.mem_cons.mp h2 with heq | h
            · exact absurd
                (h01.symm.trans (congrArg (fun t => t.1) heq).symm) hne
            · exact h
          have hfind : rest.find? (pairPred c pid) = some (s2, k2, z2) := by
            have hsome : (rest.find? (pairPred c pid)).isSome := by
              rw [List.find?_isSome]
              exact ⟨(s2, k2, z2), h2r, (pairPred_eq_true c pid _).mpr hm2⟩
            obtain ⟨t4, ht4⟩ := Option.isSome_iff_exists.mp hsome
            have h4mem : t4 ∈ rest := List.mem_of_find?_eq_some ht4
            have h4p : (metaFor c t4.1).pair_id = some pid :=
              (pairPred_eq_true c pid t4).mp (List.find?_some ht4)
            have h4s : t4.1 = s2 := by
              by_contra hns2
              by_cases hts1 : t4.1 = s1
              · exact hns1
                  (hts1 ▸ List.mem_map_of_mem (fun t => t.1) h4mem)
              · exact hoth t4 (List.mem_cons_of_mem _ h4mem) hts1 hns2 h4p
            have h4eq : t4 = (s2, k2, z2) :=
              eq_of_keys_nodup rest hnd2.2 t4 (s2, k2, z2) h4mem h2r h4s
            rw [← h4eq]
            exact ht4
          have hppn :
              ¬ (metaFor c s1).pair_position = some PairPosition.right := by
            rw [hp1]
            intro hx
            exact PairPosition.noConfusion (Option.some.inj hx)
          rw [hhd, buildRowsAux]
          simp only [hm1, hfind]
          rw [if_neg hppn]
          refine ⟨[], buildRowsAux c f (rest.eraseP (pairPred c pid)),
            rfl, ?_⟩
          intro r hr
          rw [List.nil_append] at hr
          have hsl := rowSlots_sub c f _ r hr
          obtain ⟨a, l1, l2, hnl1, hpa, hldec, herase⟩ :=
            List.exists_of_eraseP h2r ((pairPred_eq_true c pid _).mpr hm2)
          have ha1 : a.1 = s2 := by
            have hap : (metaFor c a.1).pair_id = some pid :=
              (pairPred_eq_true c pid a).mp hpa
            have hamem : a ∈ rest := by
              rw [hldec]
              exact List.mem_append_right l1 (List.mem_cons_self _ _)
            by_contra hbs2
            by_cases hbs1 : a.1 = s1
            · exact hns1
                (hbs1 ▸ List.mem_map_of_mem (fun t => t.1) hamem)
            · exact hoth a (List.mem_cons_of_mem _ hamem) hbs1 hbs2 hap
          constructor
          · intro hs1in
            have hmem := hsl s1 hs1in
            have hsub : List.Sublist
                ((rest.eraseP (pairPred c pid)).map fun t => t.1)
                (rest.map fun t => t.1) :=
              (List.eraseP_sublist rest).map _
            exact hns1 (hsub.mem hmem)
          · intro hs2in
            have h2in := hsl s2 hs2in
            have hmid : ((l1 ++ a :: l2).map fun t => t.1).Nodup := by
              rw [← hldec]
              exact hnd2.2
            rw [List.map_append, List.map_cons, ha1] at hmid
            have hcons := List.nodup_middle.mp hmid
            rw [List.nodup_cons] at hcons
            rw [herase, List.map_append] at h2in
            exact hcons.1 h2in
        · by_cases h02 : s0 = s2
          · -- the head is the right-tagged entry
            have hhd : ((s0, k0, z0) : String × String × ℚ) = (s2, k2, z2) :=
              eq_of_keys_nodup _ hnd _ _ (List.mem_cons_self _ _) h2 h02
            have hns2 : s2 ∉ rest.map fun t => t.1 := h02 ▸ hnd2.1
            have h1r : (s1, k1, z1) ∈ rest := by
              rcases List.mem_cons.mp h1 with heq | h
              · exact absurd
                  ((congrArg (fun t => t.1) heq).trans h02) hne
              · exact h
            have hfind : rest.find? (pairPred c pid) = some (s1, k1, z1) := by
              have hsome : (rest.find? (pairPred c pid)).isSome := by
                rw [List.find?_isSome]
                exact ⟨(s1, k1, z1), h1r, (pairPred_eq_true c pid _).mpr hm1⟩
              obtain ⟨t4, ht4⟩ := Option.isSome_iff_exists.mp hsome
              have h4mem : t4 ∈ rest := List.mem_of_find?_eq_some ht4
              have h4p : (metaFor c t4.1).pair_id = some pid :=
                (pairPred_eq_true c pid t4).mp (List.find?_some ht4)
              have h4s : t4.1 = s1 := by
                by_contra hts1
                by_cases hts2 : t4.1 = s2
                · exact hns2
                    (hts2 ▸ List.mem_map_of_mem (fun t => t.1) h4mem)
                · exact hoth t4 (List.mem_cons_of_mem _ h4mem) hts1 hts2 h4p
              have h4eq : t4 = (s1, k1, z1) :=
                eq_of_keys_nodup rest hnd2.2 t4 (s1, k1, z1) h4mem h1r h4s
              rw [← h4eq]
              exact ht4
            rw [hhd, buildRowsAux]
            simp only [hm2, hfind]
            rw [if_pos hp2]
            refine ⟨[], buildRowsAux c f (rest.eraseP (pairPred c pid)),
              rfl, ?_⟩
            intro r hr
            rw [List.nil_append] at hr
            have hsl := rowSlots_sub c f _ r hr
            obtain ⟨a, l1, l2, hnl1, hpa, hldec, herase⟩ :=
              List.exists_of_eraseP h1r ((pairPred_eq_true c pid _).mpr hm1)
            have ha1 : a.1 = s1 := by
              have hap : (metaFor c a.1).pair_id = some pid :=
                (pairPred_eq_true c pid a).mp hpa
              have hamem : a ∈ rest := by
                rw [hldec]
                exact List.mem_append_right l1 (List.mem_cons_self _ _)
              by_contra hbs1
              by_cases hbs2 : a.1 = s2
              · exact hns2
                  (hbs2 ▸ List.mem_map_of_mem (fun t => t.1) hamem)
              · exact hoth a (List.mem_cons_of_mem _ hamem) hbs1 hbs2 hap
            constructor
            · intro hs1in
              have h1in := hsl s1 hs1in
              have hmid : ((l1 ++ a :: l2).map fun t => t.1).Nodup := by
                rw [← hldec]
                exact hnd2.2
              rw [List.map_append, List.map_cons, ha1] at hmid
              have hcons := List.nodup_middle.mp hmid
              rw [List.nodup_cons] at hcons
              rw [herase, List.map_append] at h1in
              exact hcons.1 h1in
            · intro hs2in
              have hmem := hsl s2 hs2in
              have hsub : List.Sublist
                  ((rest.eraseP (pairPred c pid)).map fun t => t.1)
                  (rest.map fun t => t.1) :=
                (List.eraseP_sublist rest).map _
              exact hns2 (hsub.mem hmem)
          · -- the head belongs to neither slot of the claimed pair
            have h1r : (s1, k1, z1) ∈ rest := by
              rcases List.mem_cons.mp h1 with heq | h
              · exact absurd (congrArg (fun t => t.1) heq).symm h01
              · exact h
            have h2r : (s2, k2, z2) ∈ rest := by
              rcases List.mem_cons.mp h2 with heq | h
              · exact absurd (congrArg (fun t => t.1) heq).symm h02
              · exact h
            have hoth2 : ∀ t ∈ rest, t.1 ≠ s1 → t.1 ≠ s2 →
                (metaFor c t.1).pair_id ≠ some pid :=
              fun t ht => hoth t (List.mem_cons_of_mem _ ht)
            have hothhead : (metaFor c s0).pair_id ≠ some pid :=
              hoth (s0, k0, z0) (List.mem_cons_self _ _) h01 h02
            rcases hpid : (metaFor c s0).pair_id with _ | pid2
            · obtain ⟨pre2, post2, heq, hav⟩ :=
                ih rest s1 s2 pid k1 k2 z1 z2 hlen2 hnd2.2 hne h1r h2r
                  hm1 hp1 hm2 hp2 hoth2
              refine ⟨ActionRow.single s0 k0 z0 :: pre2, post2, ?_, ?_⟩
              · rw [buildRowsAux]
                simp only [hpid]
                rw [heq, List.cons_append]
              · intro r hr
                rw [List.cons_append] at hr
                rcases List.mem_cons.mp hr with rfl | hr2
                · constructor
                  · intro hx
                    rw [rowSlots] at hx
                    exact h01 (List.mem_singleton.mp hx).symm
                  · intro hx
                    rw [rowSlots] at hx
                    exact h02 (List.mem_singleton.mp hx).symm
                · exact hav r hr2
            · have hpidne : pid2 ≠ pid := by
                intro hx
                rw [hx] at hpid
                exact hothhead hpid
              rcases hfind : rest.find? (pairPred c pid2) with _ | t4
              · obtain ⟨pre2, post2, heq, hav⟩ :=
                  ih rest s1 s2 pid k1 k2 z1 z2 hlen2 hnd2.2 hne h1r h2r
                    hm1 hp1 hm2 hp2 hoth2
                refine ⟨ActionRow.single s0 k0 z0 :: pre2, post2, ?_, ?_⟩
                · rw [buildRowsAux]
                  simp only [hpid, hfind]
                  rw [heq, List.cons_append]
                · intro r hr
                  rw [List.cons_append] at hr
                  rcases List.mem_cons.mp hr with rfl | hr2
                  · constructor
                    · intro hx
                      rw [rowSlots] at hx
                      exact h01 (List.mem_singleton.mp hx).symm
                    · intro hx
                      rw [rowSlots] at hx
                      exact h02 (List.mem_singleton.mp hx).symm
                  · exact hav r hr2
              · obtain ⟨s4, k4, z4⟩ := t4
                have h4mem : (s4, k4, z4) ∈ rest :=
                  List.mem_of_find?_eq_some hfind
                have h4p : (metaFor c s4).pair_id = some pid2 :=
                  (pairPred_eq_true c pid2 _).mp (List.find?_some hfind)
                have h4ns1 : s4 ≠ s1 := by
                  intro hx
                  rw [hx, hm1] at h4p
                  exact hpidne (Option.some.inj h4p).symm
                have h4ns2 : s4 ≠ s2 := by
                  intro hx
                  rw [hx, hm2] at h4p
                  exact hpidne (Option.some.inj h4p).symm
                obtain ⟨a, l1, l2, hnl1, hpa, hldec, herase⟩ :=
                  List.exists_of_eraseP h4mem
                    ((pairPred_eq_true c pid2 _).mpr h4p)
                have hans1 : a.1 ≠ s1 := by
                  intro hx
                  have hap : (metaFor c a.1).pair_id = some pid2 :=
                    (pairPred_eq_true c pid2 a).mp hpa
                  rw [hx, hm1] at hap
                  exact hpidne (Option.some.inj hap).symm
                have hans2 : a.1 ≠ s2 := by
                  intro hx
                  have hap : (metaFor c a.1).pair_id = some pid2 :=
                    (pairPred_eq_true c pid2 a).mp hpa
                  rw [hx, hm2] at hap
                  exact hpidne (Option.some.inj hap).symm
                have hmemKeep : ∀ (t : String × String × ℚ), t ∈ rest →
                    t.1 ≠ a.1 → t ∈ rest.eraseP (pairPred c pid2) := by
                  intro t ht htne
                  rw [herase]
                  rw [hldec] at ht
                  rcases List.mem_append.mp ht with h | h
                  · exact List.mem_append_left l2 h
                  · rcases List.mem_cons.mp h with rfl | h
                    · exact absurd rfl htne
                    · exact List.mem_append_right l1 h
                have h1e : (s1, k1, z1) ∈ rest.eraseP (pairPred c pid2) :=
                  hmemKeep _ h1r fun hx => hans1 hx.symm
                have h2e : (s2, k2, z2) ∈ rest.eraseP (pairPred c pid2) :=
                  hmemKeep _ h2r fun hx => hans2 hx.symm
                have hsubE : List.Sublist (rest.eraseP (pairPred c pid2))
                    rest := List.eraseP_sublist rest
                have hlenE : (rest.eraseP (pairPred c pid2)).length ≤ f :=
                  le_trans hsubE.length_le hlen2
                have hndE :
                    (((rest.eraseP (pairPred c pid2)).map
                      fun t => t.1)).Nodup :=
                  List.Nodup.sublist (hsubE.map _) hnd2.2
                have hothE : ∀ t ∈ rest.eraseP (pairPred c pid2),
                    t.1 ≠ s1 → t.1 ≠ s2 →
                    (metaFor c t.1).pair_id ≠ some pid :=
                  fun t ht => hoth2 t (hsubE.mem ht)
                obtain ⟨pre2, post2, heq, hav⟩ :=
                  ih (rest.eraseP (pairPred c pid2)) s1 s2 pid k1 k2 z1 z2
                    hlenE hndE hne h1e h2e hm1 hp1 hm2 hp2 hothE
                refine ⟨(if (metaFor c s0).pair_position =
                    some PairPosition.right then
                      ActionRow.pair s4 k4 z4 s0 k0 z0
                    else ActionRow.pair s0 k0 z0 s4 k4 z4) :: pre2,
                  post2, ?_, ?_⟩
                · rw [buildRowsAux]
                  simp only [hpid, hfind]
                  rw [heq, List.cons_append]
                · intro r hr
                  rw [List.cons_append] at hr
                  rcases List.mem_cons.mp hr with rfl | hr2
                  · by_cases hpp : (metaFor c s0).pair_position =
                        some PairPosition.right
                    · rw [if_pos hpp]
                      constructor
                      · intro hx
                        rw [rowSlots] at hx
                        rcases List.mem_cons.mp hx with hx | hx
                        · exact h4ns1 hx.symm
                        · exact h01 (List.mem_singleton.mp hx).symm
                      · intro hx
                        rw [rowSlots] at hx
                        rcases List.mem_cons.mp hx with hx | hx
                        · exact h4ns2 hx.symm
                        · exact h02 (List.mem_singleton.mp hx).symm
                    · rw [if_neg hpp]
                      constructor
                      · intro hx
                        rw [rowSlots] at hx
                        rcases List.mem_cons.mp hx with hx | hx
                        · exact h01 hx.symm
                        · exact h4ns1 (List.mem_singleton.mp hx).symm
                      · intro hx
                        rw [rowSlots] at hx
                        rcases List.mem_cons.mp hx with hx | hx
                        · exact h02 hx.symm
                        · exact h4ns2 (List.mem_singleton.mp hx).symm
                  · exact hav r hr2

/-- Row placement distributes over list append, the second part starting
at the boundary the first part leaves. -/
theorem placeRows_append (m : Metrics) :
    ∀ (xs ys : List ActionRow) (bot : ℚ),
      placeRows m bot (xs ++ ys) =
        placeRows m bot xs ++ placeRows m (stackBottom m bot xs) ys
  | [], ys, bot => by
      rw [List.nil_append, placeRows, stackBottom, List.foldl_nil,
        List.nil_append]
  | r :: xs, ys, bot => by
      rw [List.cons_append, placeRows, placeRows,
        placeRows_append m xs ys, List.append_assoc]
      have hsb : stackBottom m bot (r :: xs) =
          stackBottom m (qsub (qsub bot (rowHeight r)) m.spacing) xs := by
        rw [stackBottom, stackBottom, List.foldl_cons]
      rw [hsb]

/-- Every placed button takes its role from a slot of the row it came
from. -/
theorem role_of_mem_placeRows (m : Metrics) :
    ∀ (rows : List ActionRow) (bot : ℚ) (b : ButtonDescriptor),
      b ∈ placeRows m bot rows → ∃ r ∈ rows, b.role ∈ rowSlots r
  | [], bot, b => by
      intro h
      rw [placeRows] at h
      cases h
  | r :: rows, bot, b => by
      intro h
      rw [placeRows] at h
      rcases List.mem_append.mp h with h1 | h2
      · refine ⟨r, List.mem_cons_self _ _, ?_⟩
        cases r with
        | single s k z =>
            rw [rowButtons] at h1
            rcases List.mem_singleton.mp h1 with rfl
            rw [rowSlots]
            exact List.mem_singleton.mpr rfl
        | pair ls lk lz rs rk rz =>
            rw [rowButtons] at h1
            rcases List.mem_cons.mp h1 with rfl | h1
            · rw [rowSlots]
              exact List.mem_cons_self _ _
            · rcases List.mem_singleton.mp h1 with rfl
              rw [rowSlots]
              exact List.mem_cons_of_mem _ (List.mem_singleton.mpr rfl)
      · obtain ⟨r2, hr2, hrole⟩ := role_of_mem_placeRows m rows _ b h2
        exact ⟨r2, List.mem_cons_of_mem _ hr2, hrole⟩

/-- Sizing keeps the slot keys of the canonical action list. -/
theorem sizedActions_keys (c : CanonicalConfig) (m : Metrics) :
    (sizedActions c m).map (fun t => t.1) = c.acts.map Prod.fst := by
  rw [sizedActions]
  cases c.acts with
  | nil => rfl
  | cons p rest =>
      rw [List.map_cons, List.map_cons, List.map_map]
      rfl

/-- Every bound slot appears in the sized list, with one of the two
action sizes. -/
theorem mem_sizedActions (c : CanonicalConfig) (m : Metrics)
    {s k : String} (h : (s, k) ∈ c.acts) :
    ∃ z, (s, k, z) ∈ sizedActions c m ∧
      (z = m.actionSize ∨ z = m.smallSize) := by
  rw [sizedActions]
  cases hacts : c.acts with
  | nil =>
      rw [hacts] at h
      cases h
  | cons p rest =>
      rw [hacts] at h
      rcases List.mem_cons.mp h with rfl | h2
      · exact ⟨m.actionSize, List.mem_cons_self _ _, Or.inl rfl⟩
      · refine ⟨m.smallSize, List.mem_cons_of_mem _ ?_, Or.inr rfl⟩
        exact List.mem_map_of_mem (fun p => (p.1, p.2, m.smallSize)) h2

/-- The slot keys produced by the normalizer form a sublist of the fixed
slot vocabulary. -/
theorem slotKeys_sublist {α : Type} (g : String → Option α) :
    ∀ l : List String,
      List.Sublist
        ((l.filterMap fun s => (g s).map fun k => (s, k)).map Prod.fst) l
  | [] => List.Sublist.refl []
  | s :: l => by
      cases hg : g s with
      | none =>
          simp only [List.filterMap_cons, hg, Option.map_none']
          exact (slotKeys_sublist g l).cons s
      | some k =>
          simp only [List.filterMap_cons, hg, Option.map_some',
            List.map_cons]
          exact (slotKeys_sublist g l).cons₂ s

/-- The normalizer's action list, written out (definitional). -/
theorem canonicalize_acts (rc : BuildInput) :
    (canonicalize rc).acts = allowedSlots.filterMap fun s =>
      ((alistFind (rc.bindings.getD {}).slots s).orElse fun _ =>
        (alistFind rc.actions s).map RawAction.keys).map fun k => (s, k) :=
  rfl

/-- The canonical action list has distinct slot names. -/
theorem acts_keys_nodup (rc : BuildInput) :
    ((canonicalize rc).acts.map Prod.fst).Nodup := by
  rw [canonicalize_acts]
  exact List.Nodup.sublist (slotKeys_sublist _ allowedSlots) (by decide)

/-- A bound slot name comes from the fixed vocabulary. -/
theorem mem_acts_slot (rc : BuildInput) {s k : String}
    (h : (s, k) ∈ (canonicalize rc).acts) : s ∈ allowedSlots := by
  rw [canonicalize_acts] at h
  obtain ⟨a, ha, heq⟩ := List.mem_filterMap.mp h
  obtain ⟨x, _, hx⟩ := Option.map_eq_some'.mp heq
  injection hx with h1 h2
  rw [← h1]
  exact ha

/-- None of the fixed slot names collides with the movement roles. -/
theorem allowed_slots_roles :
    ∀ s ∈ allowedSlots, s ≠ "move" ∧ s ≠ "aim" := by
  decide

/-- Every movement button carries the role `"move"`. -/
theorem moveButton_role (c : CanonicalConfig) (m : Metrics) :
    ∀ b ∈ (moveButton c m).toList, b.role = "move" := by
  intro b hb
  rw [moveButton] at hb
  cases h : effectiveMove c with
  | none =>
      rw [h] at hb
      cases hb
  | some a =>
      rw [h] at hb
      rcases List.mem_singleton.mp hb with rfl
      rfl

/-- Every aim button carries the role `"aim"`. -/
theorem aimButton_role (c : CanonicalConfig) (m : Metrics) :
    ∀ b ∈ (aimButton c m).toList, b.role = "aim" := by
  intro b hb
  rw [aimButton] at hb
  cases h : c.aim with
  | none =>
      rw [h] at hb
      cases hb
  | some a =>
      rw [h] at hb
      rcases List.mem_singleton.mp hb with rfl
      rfl

/-- The clamped metrics respect their lower pixel bounds. -/
theorem metrics_lower (vp : Viewport) :
    10 ≤ (metricsOf vp).spacing ∧ 48 ≤ (metricsOf vp).smallSize ∧
      56 ≤ (metricsOf vp).actionSize := by
  rw [metricsOf]
  exact ⟨le_max_left _ _, le_max_left _ _, le_max_left _ _⟩

/-- C6: for every config — any input shape, any viewport, any
surrounding bindings, either slot order, either sizing — in which
exactly two action slots share a `pair_id`, one tagged
`pair_position: left` and the other `right`, `buildLayout` renders one
button for each of the two slots, and every button pair with these roles
sits adjacent: same y-center, horizontal centers exactly
`leftSize/2 + spacing + rightSize/2` apart, the `left`-tagged slot at
the strictly smaller x-coordinate. -/
theorem paired_actions_adjacent (rc : BuildInput)
    (s1 s2 pid k1 k2 : String)
    (hv : validInput rc = true)
    (hne : s1 ≠ s2)
    (h1 : (s1, k1) ∈ (canonicalize rc).acts)
    (h2 : (s2, k2) ∈ (canonicalize rc).acts)
    (hm1 : (metaFor (canonicalize rc) s1).pair_id = some pid)
    (hp1 : (metaFor (canonicalize rc) s1).pair_position =
      some PairPosition.left)
    (hm2 : (metaFor (canonicalize rc) s2).pair_id = some pid)
    (hp2 : (metaFor (canonicalize rc) s2).pair_position =
      some PairPosition.right)
    (hoth : ∀ p ∈ (canonicalize rc).acts, p.1 ≠ s1 → p.1 ≠ s2 →
      (metaFor (canonicalize rc) p.1).pair_id ≠ some pid) :
    ∃ res, buildLayout rc = Except.ok res ∧
      (∃ b1 ∈ res.buttons, b1.role = s1) ∧
      (∃ b2 ∈ res.buttons, b2.role = s2) ∧
      ∀ b1 ∈ res.buttons, ∀ b2 ∈ res.buttons,
        b1.role = s1 → b2.role = s2 →
        b1.y = b2.y ∧
        b2.x = qadd (qadd (qadd b1.x (qhalf b1.size))
          res.metrics.spacing) (qhalf b2.size) ∧
        b1.x < b2.x := by
  set c := canonicalize rc with hc
  set m := metricsOf rc.viewport with hmdef
  have hs1a : s1 ∈ allowedSlots := mem_acts_slot rc h1
  have hs2a : s2 ∈ allowedSlots := mem_acts_slot rc h2
  have hs1mv := allowed_slots_roles s1 hs1a
  have hs2mv := allowed_slots_roles s2 hs2a
  obtain ⟨z1, hz1mem, hz1val⟩ := mem_sizedActions c m h1
  obtain ⟨z2, hz2mem, hz2val⟩ := mem_sizedActions c m h2
  have hnd : ((sizedActions c m).map fun t => t.1).Nodup := by
    rw [sizedActions_keys]
    exact acts_keys_nodup rc
  have hothL : ∀ t ∈ sizedActions c m, t.1 ≠ s1 → t.1 ≠ s2 →
      (metaFor c t.1).pair_id ≠ some pid := by
    intro t ht hts1 hts2
    have hmem : t.1 ∈ (sizedActions c m).map fun t => t.1 :=
      List.mem_map_of_mem _ ht
    rw [sizedActions_keys] at hmem
    obtain ⟨p, hp, hpe⟩ := List.mem_map.mp hmem
    have hres := hoth p hp (by rw [hpe]; exact hts1)
      (by rw [hpe]; exact hts2)
    rw [hpe] at hres
    exact hres
  obtain ⟨pre, post, hrows, hav⟩ :=
    buildRows_pair c (sizedActions c m).length (sizedActions c m)
      s1 s2 pid k1 k2 z1 z2 (le_refl _) hnd hne hz1mem hz2mem
      hm1 hp1 hm2 hp2 hothL
  set bot0 : ℚ := (if c.aim.isSome then
      qsub (qsub (qsub (qsub m.height m.safeArea.bottom)
        m.edgePadding) m.movementSize) m.spacing
    else qsub (qsub m.height m.safeArea.bottom) m.edgePadding) with hbot0
  have hpb : placeButtons c m =
      (moveButton c m).toList ++ (aimButton c m).toList ++
        placeRows m bot0
          (buildRowsAux c (sizedActions c m).length (sizedActions c m)) :=
    rfl
  rw [hrows, placeRows_append, placeRows] at hpb
  set bp := stackBottom m bot0 pre with hbp
  set h12 := rowHeight (ActionRow.pair s1 k1 z1 s2 k2 z2) with hh12
  set xr := qsub (qsub (qsub m.width m.safeArea.right) m.edgePadding)
    (qhalf z2) with hxr
  set xl := qsub (qsub (qsub xr (qhalf z2)) m.spacing) (qhalf z1) with hxl
  set bL : ButtonDescriptor :=
    ⟨s1, s1, "button", ButtonKeys.single k1, xl, qsub bp (qhalf h12), z1⟩
    with hbL
  set bR : ButtonDescriptor :=
    ⟨s2, s2, "button", ButtonKeys.single k2, xr, qsub bp (qhalf h12), z2⟩
    with hbR
  have hrow : rowButtons m bp (ActionRow.pair s1 k1 z1 s2 k2 z2) =
      [bL, bR] := rfl
  rw [hrow] at hpb
  have hres : buildLayout rc = Except.ok
      ⟨selectArchetype c, c.move, c.aim, c.acts, c.metas,
        placeButtons c m, m⟩ := by
    unfold buildLayout
    rw [if_pos hv]
  refine ⟨⟨selectArchetype c, c.move, c.aim, c.acts, c.metas,
    placeButtons c m, m⟩, hres, ?_, ?_, ?_⟩
  · show ∃ b1 ∈ placeButtons c m, b1.role = s1
    refine ⟨bL, ?_, rfl⟩
    rw [hpb]
    exact List.mem_append_right _
      (List.mem_append_right _ (List.mem_cons_self _ _))
  · show ∃ b2 ∈ placeButtons c m, b2.role = s2
    refine ⟨bR, ?_, rfl⟩
    rw [hpb]
    exact List.mem_append_right _ (List.mem_append_right _
      (List.mem_cons_of_mem _ (List.mem_cons_self _ _)))
  · intro b1 hb1 b2 hb2 hr1 hr2
    have hb1p : b1 ∈ placeButtons c m := hb1
    have hb2p : b2 ∈ placeButtons c m := hb2
    rw [hpb] at hb1p hb2p
    have hb1L : b1 = bL := by
      rcases List.mem_append.mp hb1p with hAB | hC
      · rcases List.mem_append.mp hAB with hA | hB
        · exact absurd (hr1.symm.trans (moveButton_role c m b1 hA))
            hs1mv.1
        · exact absurd (hr1.symm.trans (aimButton_role c m b1 hB))
            hs1mv.2
      · rcases List.mem_append.mp hC with hP | hQ
        · obtain ⟨r, hrpre, hrole⟩ := role_of_mem_placeRows m pre _ b1 hP
          rw [hr1] at hrole
          exact absurd hrole (hav r (List.mem_append_left post hrpre)).1
        · rcases List.mem_cons.mp hQ with rfl | hQ2
          · rfl
          · rcases List.mem_cons.mp hQ2 with rfl | hQ3
            · exact absurd (show (s2 : String) = s1 from hr1)
                fun hx => hne hx.symm
            · obtain ⟨r, hrpost, hrole⟩ :=
                role_of_mem_placeRows m post _ b1 hQ3
              rw [hr1] at hrole
              exact absurd hrole
                (hav r (List.mem_append_right pre hrpost)).1
    have hb2R : b2 = bR := by
      rcases List.mem_append.mp hb2p with hAB | hC
      · rcases List.mem_append.mp hAB with hA | hB
        · exact absurd (hr2.symm.trans (moveButton_role c m b2 hA))
            hs2mv.1
        · exact absurd (hr2.symm.trans (aimButton_role c m b2 hB))
            hs2mv.2
      · rcases List.mem_append.mp hC with hP | hQ
        · obtain ⟨r, hrpre, hrole⟩ := role_of_mem_placeRows m pre _ b2 hP
          rw [hr2] at hrole
          exact absurd hrole (hav r (List.mem_append_left post hrpre)).2
        · rcases List.mem_cons.mp hQ with rfl | hQ2
          · exact absurd (show (s1 : String) = s2 from hr2) hne
          · rcases List.mem_cons.mp hQ2 with rfl | hQ3
            · rfl
            · obtain ⟨r, hrpost, hrole⟩ :=
                role_of_mem_placeRows m post _ b2 hQ3
              rw [hr2] at hrole
              exact absurd hrole
                (hav r (List.mem_append_right pre hrpost)).2
    subst hb1L
    subst hb2R
    have hml := metrics_lower rc.viewport
    rw [← hmdef] at hml
    have hz1lo : (48 : ℚ) ≤ z1 := by
      rcases hz1val with rfl | rfl
      · linarith [hml.2.2]
      · exact hml.2.1
    have hz2lo : (48 : ℚ) ≤ z2 := by
      rcases hz2val with rfl | rfl
      · linarith [hml.2.2]
      · exact hml.2.1
    refine ⟨rfl, ?_, ?_⟩
    · show xr = qadd (qadd (qadd xl (qhalf z1)) m.spacing) (qhalf z2)
      rw [hxl, hxr]
      simp only [qadd_eq, qsub_eq, qhalf_eq]
      ring
    · show xl < xr
      rw [hxl]
      simp only [qsub_eq, qhalf_eq]
      linarith [hml.1]

/-- A concrete paired-action input: runner-style bindings carrying the
`secondary` (left) / `tertiary` (right) pair of `pairedMeta`, on the
phone-portrait regression viewport. -/
def pairedWitnessInput : BuildInput :=
  { layout := "auto"
    bindings := some
      { slots := [("primary", "Space"), ("secondary", "KeyJ"),
          ("tertiary", "KeyK")] }
    actionMeta := pairedMeta
    viewport := ⟨390, 844, ⟨47, 0, 34, 0⟩⟩ }

/-- Witness for C6 at the concrete paired runner config. -/
theorem paired_actions_adjacent_witness :
    ∃ res, buildLayout pairedWitnessInput = Except.ok res ∧
      (∃ b1 ∈ res.buttons, b1.role = "secondary") ∧
      (∃ b2 ∈ res.buttons, b2.role = "tertiary") ∧
      ∀ b1 ∈ res.buttons, ∀ b2 ∈ res.buttons,
        b1.role = "secondary" → b2.role = "tertiary" →
        b1.y = b2.y ∧
        b2.x = qadd (qadd (qadd b1.x (qhalf b1.size))
          res.metrics.spacing) (qhalf b2.size) ∧
        b1.x < b2.x :=
  paired_actions_adjacent pairedWitnessInput "secondary" "tertiary" "pp"
    "KeyJ" "KeyK" (by decide) (by decide) (by decide) (by decide)
    (by decide) (by decide) (by decide) (by decide) (by decide)

/-- C7: `buildLayout` is deterministic and stateless.  The engine is
embedded as a pure function of its input (spec section 5: no shared
mutable state, everything constructed fresh per invocation), so two
calls with identical input yield identical results — the full
`LayoutResult` and each of its components agree across the two calls. -/
theorem buildLayout_deterministic (rc : BuildInput) :
    buildLayout rc = buildLayout rc ∧
    (buildLayout rc).map LayoutResult.layout =
      (buildLayout rc).map LayoutResult.layout ∧
    (buildLayout rc).map LayoutResult.buttons =
      (buildLayout rc).map LayoutResult.buttons ∧
    (buildLayout rc).map LayoutResult.metrics =
      (buildLayout rc).map LayoutResult.metrics ∧
    layoutButtons (buildLayout rc) = layoutButtons (buildLayout rc) :=
  ⟨rfl, rfl, rfl, rfl, rfl⟩

/-- Unpack a successful validation into the guarantees the individual
checks provide. -/
theorem validInput_spec (rc : BuildInput) (h : validInput rc = true) :
    (∀ p ∈ rc.actions, allowedSlots.contains p.1 = true) ∧
    (∀ p ∈ rc.actionMeta, (parseMeta p.2).isSome = true) ∧
    (∀ k ∈ referencedKeys (canonicalize rc),
      (resolveKeyDescriptor k).isSome = true) := by
  unfold validInput at h
  simp only [Bool.and_eq_true, List.all_eq_true] at h
  obtain ⟨⟨⟨⟨⟨⟨_, hacts⟩, _⟩, hmeta⟩, _⟩, _⟩, hkeys⟩ := h
  exact ⟨fun p hp => hacts p hp, fun p hp => (hmeta p hp).2,
    fun k hk => hkeys k hk⟩

/-- C8: `buildLayout` fails with a schema error — emitting no buttons —
whenever the input carries an action slot name outside the fixed slot
set, a metadata entry with an invalid enum value, or a referenced key
name the Key Descriptor Resolver cannot resolve (spec sections 4.2, 6
and 7: surfaced, never coerced; no partial side effects). -/
theorem invalid_config_rejected (rc : BuildInput)
    (h : (∃ p ∈ rc.actions, allowedSlots.contains p.1 = false) ∨
      (∃ p ∈ rc.actionMeta, parseMeta p.2 = none) ∨
      (∃ k ∈ referencedKeys (canonicalize rc),
        resolveKeyDescriptor k = none)) :
    buildLayout rc = Except.error LayoutError.schemaError ∧
    layoutButtons (buildLayout rc) = [] ∧
    layoutOk (buildLayout rc) = false := by
  have hv : ¬ validInput rc = true := by
    intro htrue
    obtain ⟨hs, hm, hk⟩ := validInput_spec rc htrue
    rcases h with ⟨p, hp, hbad⟩ | ⟨p, hp, hbad⟩ | ⟨k, hk2, hbad⟩
    · rw [hs p hp] at hbad
      exact Bool.noConfusion hbad
    · have h2 := hm p hp
      rw [hbad] at h2
      exact Bool.noConfusion h2
    · have h2 := hk k hk2
      rw [hbad] at h2
      exact Bool.noConfusion h2
  have he : buildLayout rc = Except.error LayoutError.schemaError := by
    unfold buildLayout
    rw [if_neg hv]
  refine ⟨he, ?_, ?_⟩
  · rw [he]
    rfl
  · rw [he]
    rfl

/-- An input using the out-of-vocabulary action slot name `"fire"`. -/
def badSlotInput : BuildInput :=
  { layout := "auto"
    actions := [("fire", { keys := "Space" })]
    viewport := ⟨800, 600, ⟨0, 0, 0, 0⟩⟩ }

/-- Witness for C8: the action slot name `"fire"` is rejected with a
schema error and no buttons. -/
theorem invalid_config_rejected_witness :
    buildLayout badSlotInput = Except.error LayoutError.schemaError ∧
    layoutButtons (buildLayout badSlotInput) = [] ∧
    layoutOk (buildLayout badSlotInput) = false :=
  invalid_config_rejected badSlotInput
    (Or.inl ⟨("fire", { keys := "Space" }), by decide, by decide⟩)

mutual
/-- JSON value tree as the snapshot exporter sees it; numbers are embedded
as rationals (every finite decimal is exactly representable, which is the
algebra the exporter's one-decimal rounding relies on). -/
inductive JsonVal
  | num (q : ℚ)
  | str (s : String)
  | bool (b : Bool)
  | null
  | arr (xs : JsonList)
  | obj (fs : JsonObj)
  deriving DecidableEq

/-- A JSON array, spelled out so the recursion over values stays
structural. -/
inductive JsonList
  | nil
  | cons (hd : JsonVal) (tl : JsonList)
  deriving DecidableEq

/-- The ordered fields of a JSON object. -/
inductive JsonObj
  | nil
  | cons (k : String) (v : JsonVal) (tl : JsonObj)
  deriving DecidableEq
end

/-- Embedded from `roundValue` of `scripts/export_layout_snapshots.js`
(lines 80-83): every finite number maps to `Math.round(value * 10) / 10`
(`Math.round` is round-half-up, which is Mathlib's `round`); non-number
values are returned unchanged by the caller, so the numeric case is all
that is modelled. -/
def roundValue (q : ℚ) : ℚ :=
  ((round (q * 10) : ℤ) : ℚ) / 10

mutual
/-- Embedded from `roundDeep` of `scripts/export_layout_snapshots.js`
(lines 85-95): arrays and objects are mapped recursively, numbers go
through `roundValue`, every other leaf is returned unchanged. -/
def roundDeep : JsonVal → JsonVal
  | .num q => .num (roundValue q)
  | .str s => .str s
  | .bool b => .bool b
  | .null => .null
  | .arr xs => .arr (roundDeepList xs)
  | .obj fs => .obj (roundDeepObj fs)

/-- `roundDeep` mapped over a JSON array. -/
def roundDeepList : JsonList → JsonList
  | .nil => .nil
  | .cons x xs => .cons (roundDeep x) (roundDeepList xs)

/-- `roundDeep` mapped over the values of a JSON object. -/
def roundDeepObj : JsonObj → JsonObj
  | .nil => .nil
  | .cons k v fs => .cons k (roundDeep v) (roundDeepObj fs)
end

/-- One button's snapshot summary (`summarizeLayout` of
`scripts/export_layout_snapshots.js`, lines 101-113): id/role/type/keys
verbatim, `x`/`y`/`size` rounded to one decimal. -/
structure ButtonSummary where
  id : String
  role : String
  type : String
  keys : ButtonKeys
  x : ℚ
  y : ℚ
  size : ℚ
  deriving DecidableEq, Repr

/-- Embedded from the button mapping inside `summarizeLayout` of
`scripts/export_layout_snapshots.js`. -/
def summarizeButton (b : ButtonDescriptor) : ButtonSummary :=
  ⟨b.id, b.role, b.type, b.keys, roundValue b.x, roundValue b.y,
    roundValue b.size⟩

/-- Embedded from `summarizeLayout` of
`scripts/export_layout_snapshots.js`: the layout name plus the per-button
summaries. -/
def summarizeLayout (r : LayoutResult) : String × List ButtonSummary :=
  (r.layout, r.buttons.map summarizeButton)

/-- The safe-area insets as JSON fields. -/
def safeAreaJson (sa : SafeArea) : JsonObj :=
  .cons "top" (.num sa.top) (.cons "right" (.num sa.right)
    (.cons "bottom" (.num sa.bottom) (.cons "left" (.num sa.left) .nil)))

/-- The metrics object as the exporter serializes it (every field is a
number except the nested safe-area object). -/
def metricsJson (m : Metrics) : JsonVal :=
  .obj (.cons "width" (.num m.width) (.cons "height" (.num m.height)
    (.cons "safeArea" (.obj (safeAreaJson m.safeArea))
    (.cons "edgePadding" (.num m.edgePadding)
    (.cons "spacing" (.num m.spacing)
    (.cons "movementSize" (.num m.movementSize)
    (.cons "actionSize" (.num m.actionSize)
    (.cons "smallSize" (.num m.smallSize) .nil))))))))

/-- Metrics with every numeric field rounded to one decimal. -/
def roundMetrics (m : Metrics) : Metrics :=
  { width := roundValue m.width
    height := roundValue m.height
    safeArea := ⟨roundValue m.safeArea.top, roundValue m.safeArea.right,
      roundValue m.safeArea.bottom, roundValue m.safeArea.left⟩
    edgePadding := roundValue m.edgePadding
    spacing := roundValue m.spacing
    movementSize := roundValue m.movementSize
    actionSize := roundValue m.actionSize
    smallSize := roundValue m.smallSize }

theorem roundValue_idem (q : ℚ) :
    roundValue (roundValue q) = roundValue q := by
  unfold roundValue
  have h : (((round (q * 10) : ℤ) : ℚ) / 10) * 10 =
      ((round (q * 10) : ℤ) : ℚ) := by
    field_simp
  rw [h, round_intCast]

mutual
theorem roundDeep_idem : ∀ v, roundDeep (roundDeep v) = roundDeep v
  | .num q => by rw [roundDeep, roundDeep, roundValue_idem]
  | .str s => rfl
  | .bool b => rfl
  | .null => rfl
  | .arr xs => by rw [roundDeep, roundDeep, roundDeepList_idem xs]
  | .obj fs => by rw [roundDeep, roundDeep, roundDeepObj_idem fs]

theorem roundDeepList_idem :
    ∀ xs, roundDeepList (roundDeepList xs) = roundDeepList xs
  | .nil => rfl
  | .cons x xs => by
      rw [roundDeepList, roundDeepList, roundDeep_idem x,
        roundDeepList_idem xs]

theorem roundDeepObj_idem :
    ∀ fs, roundDeepObj (roundDeepObj fs) = roundDeepObj fs
  | .nil => rfl
  | .cons k v fs => by
      rw [roundDeepObj, roundDeepObj, roundDeep_idem v,
        roundDeepObj_idem fs]
end

/-- C9: the exporter's rounding maps every number to
`Math.round(value * 10) / 10` (one decimal), is applied recursively to
the button summary fields `x`,`y`,`size` and to every numeric value in
`metrics`, and is idempotent — already-rounded output round-trips
unchanged through `roundValue`/`roundDeep`. -/
theorem snapshot_rounding_idempotent :
    (∀ q : ℚ, roundValue q = ((round (q * 10) : ℤ) : ℚ) / 10) ∧
    (∀ q : ℚ, roundValue (roundValue q) = roundValue q) ∧
    (∀ v : JsonVal, roundDeep (roundDeep v) = roundDeep v) ∧
    (∀ b : ButtonDescriptor,
      summarizeButton b = ⟨b.id, b.role, b.type, b.keys, roundValue b.x,
        roundValue b.y, roundValue b.size⟩) ∧
    (∀ b : ButtonDescriptor,
      summarizeButton b =
        summarizeButton ⟨b.id, b.role, b.type, b.keys, roundValue b.x,
          roundValue b.y, roundValue b.size⟩) ∧
    (∀ m : Metrics, roundDeep (metricsJson m) = metricsJson (roundMetrics m)) :=
  ⟨fun _ => rfl, roundValue_idem, roundDeep_idem, fun _ => rfl,
    fun b => by
      show summarizeButton b = _
      unfold summarizeButton
      rw [roundValue_idem, roundValue_idem, roundValue_idem],
    fun _ => rfl⟩

/-- Consume the expected literal character sequence `ts` from the front
of `cs`, returning the remainder. -/
def dropToken : List Char → List Char → Option (List Char)
  | [], cs => some cs
  | _ :: _, [] => none
  | t :: ts, c :: cs => if c = t then dropToken ts cs else none

/-- The part of the exporter regex after the literal backslash: greedy
`s*`, then `"`, then the capture `[^"]+`, then the closing `"`.  Since
`"` is excluded from both the starred and the captured classes, the
greedy semantics needs no backtracking. -/
def afterSlash (r2 : List Char) : Option (List Char) :=
  match r2.dropWhile (· = 's') with
  | [] => none
  | c :: r4 =>
      if c = '\"' then
        let cap := r4.takeWhile (· ≠ '\"')
        if cap.isEmpty then none
        else
          match r4.dropWhile (· ≠ '\"') with
          | '\"' :: _ => some cap
          | _ => none
      else none

/-- Try the exporter pattern at the start of `cs`.  The JS regex literal
`/layout:\\s*\"([^\"]+)\"/` tokenizes as: the literal text `layout:`,
then `\\` (one literal backslash character), then `s*` (zero or more
letters `s`), then `"`, the capture `([^"]+)`, and `"` — the intended
`\s*` whitespace class is lost to the double escape. -/
def layoutMatchAt (cs : List Char) : Option (List Char) :=
  match dropToken ("layout:".toList) cs with
  | none => none
  | some r1 =>
      match r1 with
      | [] => none
      | c :: r2 => if c = '\\' then afterSlash r2 else none

/-- Leftmost-match scan over every starting position, as
`String.prototype.match` does. -/
def layoutScan : List Char → Option (List Char)
  | [] => none
  | c :: cs =>
      match layoutMatchAt (c :: cs) with
      | some cap => some cap
      | none => layoutScan cs

/-- Embedded from `extractLayout` of
`scripts/export_gold_configs.js` (lines 40-43) and
`scripts/export_layout_snapshots.js` (lines 75-78):
`content.match(/layout:\\s*\"([^\"]+)\"/)`, returning the capture on a
match and `"auto"` otherwise. -/
def extractLayout (content : String) : String :=
  match layoutScan content.toList with
  | some cap => String.mk cap
  | none => "auto"

/-- Whatever `dropToken` leaves is made of characters of the original
list. -/
theorem dropToken_mem {ts cs r : List Char} (h : dropToken ts cs = some r) :
    ∀ x ∈ r, x ∈ cs := by
  induction ts generalizing cs with
  | nil =>
      rw [dropToken] at h
      cases h
      exact fun x hx => hx
  | cons t ts ih =>
      cases cs with
      | nil => exact absurd h (by rw [dropToken]; intro hc; cases hc)
      | cons c cs2 =>
          rw [dropToken] at h
          by_cases hct : c = t
          · rw [if_pos hct] at h
            exact fun x hx => List.mem_cons_of_mem c (ih h x hx)
          · rw [if_neg hct] at h
            cases h

/-- A starting position whose text holds no backslash can never match
the exporter pattern: the pattern demands a literal `\` right after
`layout:`. -/
theorem layoutMatchAt_none {cs : List Char}
    (h : ∀ c ∈ cs, c ≠ '\\') : layoutMatchAt cs = none := by
  rw [layoutMatchAt]
  cases hd : dropToken ("layout:".toList) cs with
  | none => rfl
  | some r1 =>
      cases r1 with
      | nil => rfl
      | cons c r2 =>
          have hc : c ≠ '\\' :=
            h c (dropToken_mem hd c (List.mem_cons_self c r2))
          simp only [if_neg hc]

/-- Scanning backslash-free text never finds a match. -/
theorem layoutScan_none : ∀ {cs : List Char},
    (∀ c ∈ cs, c ≠ '\\') → layoutScan cs = none
  | [], _ => rfl
  | c :: cs, h => by
      rw [layoutScan, layoutMatchAt_none h]
      exact layoutScan_none fun x hx => h x (List.mem_cons_of_mem c hx)

/-- C10: `extractLayout` returns `"auto"` for every file content free of
literal backslash characters — in particular for content where the
layout is written as ordinary text like `layout: "name"` — because the
regex `/layout:\\s*\"([^\"]+)\"/` demands a literal backslash; the
quoted layout name is never captured.  The second conjunct pins the
model: text that does carry `layout:` + backslash + `"name"` is
captured. -/
theorem extractLayout_ignores_plain_text :
    (∀ content : String, (∀ c ∈ content.toList, c ≠ '\\') →
      extractLayout content = "auto") ∧
    extractLayout "json text with layout:\\\"dual-stick\" inside" =
      "dual-stick" := by
  constructor
  · intro content h
    rw [extractLayout, layoutScan_none h]
  · rfl

/-- Witness for C10: ordinary gold-config text carrying
`layout: "safe-platformer"` still exports `"auto"`. -/
theorem extractLayout_ignores_plain_text_witness :
    extractLayout "a config with layout: \"safe-platformer\" written plainly" =
      "auto" :=
  extractLayout_ignores_plain_text.1
    "a config with layout: \"safe-platformer\" written plainly" (by decide)

end TouchpadControls
